import Mathlib

/-!
Shallow embedding of the bulk notification dispatcher in
`send_bulk_message.py` (the core selected by the specification), together
with proofs of its spec-level properties.

Modelling conventions:
* Python floats (the pacing delay `1.0 / rate`, `retry_after`) are modelled
  as rationals; no claim about float rounding is made by the spec.
* A Telegram API exception is modelled as a constructor of `AttemptResult`
  carrying the string that Python `str(e)` would produce (and, for the
  generic `Exception` branch, additionally the `repr(e)` string, since the
  source uses `repr` there and `str` elsewhere).
* The payload branch (text vs. image, URL vs. local file) inside the `try`
  of `send_one` shares a single exception-handling policy, so one send
  attempt is modelled by the `AttemptResult` it produces.
* The awaits performed by one `send_one` task are recorded, in program
  order, as a list of `SOEvent`s (sleeps with their durations, semaphore
  acquisition/release, numbered send attempts).
-/

/-- Result of one underlying Telegram API call (`bot.send_message` /
`bot.send_photo`): success, or one of the exception kinds distinguished by
the handlers in `send_one`.  `retryAfter` carries the `retry_after`
attribute of the `RetryAfter` exception; every exception constructor also
carries its `str(e)` description, and the catch-all constructor `otherExc`
carries both `str(e)` and `repr(e)`. -/
inductive AttemptResult
  | ok
  | retryAfter (retry_after : ℚ) (msg : String)
  | forbidden (msg : String)
  | badRequest (msg : String)
  | networkError (msg : String)
  | timedOut (msg : String)
  | otherExc (msg : String) (reprMsg : String)
  deriving DecidableEq

/-- Behaviour of the network towards one recipient: the result of the
first send attempt and (consulted only after a `RetryAfter`) the result of
the second attempt. -/
structure Behavior where
  first : AttemptResult
  second : AttemptResult
  deriving DecidableEq

/-- The status strings returned by `send_one` (lines 105, 118, 120, 123,
125, 127 of `send_bulk_message.py`). -/
inductive Status
  | ok
  | ok_after_retry
  | failed_after_retry
  | forbidden
  | error
  deriving DecidableEq

/-- One awaited step of a `send_one` task, in program order: a sleep of a
given duration, acquiring/releasing the shared semaphore, or the n-th send
attempt (the network call). -/
inductive SOEvent
  | sleep (d : ℚ)
  | acquireSem
  | attempt (n : ℕ)
  | releaseSem
  deriving DecidableEq

/-- The value `send_one` returns for one recipient — the Python triple
`(user_id, status, err)` — together with the recorded event trace. -/
structure SendRec where
  uid : ℤ
  status : Status
  err : Option String
  events : List SOEvent
  deriving DecidableEq

/-- The `str(e)` description of an attempt result (`none` on success). -/
def strOf : AttemptResult → Option String
  | .ok => none
  | .retryAfter _ m => some m
  | .forbidden m => some m
  | .badRequest m => some m
  | .networkError m => some m
  | .timedOut m => some m
  | .otherExc m _ => some m

/-- Model of `send_one` (lines 67-127): sleep the pacing delay, acquire
the semaphore, attempt the send; on `RetryAfter` sleep `retry_after + 1`
and attempt exactly once more, classifying the second result under
`except Exception`; on `Forbidden` return `forbidden`; on
`BadRequest`/`NetworkError`/`TimedOut` return `error` with `str(e)`; on
any other exception return `error` with `repr(e)`.  The semaphore is
released when the `async with` block is exited, i.e. after the terminal
triple is produced. -/
def send_one (uid : ℤ) (rate_delay : ℚ) (b : Behavior) : SendRec :=
  match b.first with
  | .ok =>
      ⟨uid, .ok, none,
        [.sleep rate_delay, .acquireSem, .attempt 1, .releaseSem]⟩
  | .retryAfter r _ =>
      match b.second with
      | .ok =>
          ⟨uid, .ok_after_retry, none,
            [.sleep rate_delay, .acquireSem, .attempt 1,
              .sleep (r + 1), .attempt 2, .releaseSem]⟩
      | e =>
          ⟨uid, .failed_after_retry, strOf e,
            [.sleep rate_delay, .acquireSem, .attempt 1,
              .sleep (r + 1), .attempt 2, .releaseSem]⟩
  | .forbidden m =>
      ⟨uid, .forbidden, some m,
        [.sleep rate_delay, .acquireSem, .attempt 1, .releaseSem]⟩
  | .badRequest m =>
      ⟨uid, .error, some m,
        [.sleep rate_delay, .acquireSem, .attempt 1, .releaseSem]⟩
  | .networkError m =>
      ⟨uid, .error, some m,
        [.sleep rate_delay, .acquireSem, .attempt 1, .releaseSem]⟩
  | .timedOut m =>
      ⟨uid, .error, some m,
        [.sleep rate_delay, .acquireSem, .attempt 1, .releaseSem]⟩
  | .otherExc _ rm =>
      ⟨uid, .error, some rm,
        [.sleep rate_delay, .acquireSem, .attempt 1, .releaseSem]⟩

/-- Number of send attempts recorded in a trace. -/
def numAttempts (evs : List SOEvent) : ℕ :=
  evs.countP (fun e => match e with | .attempt _ => true | _ => false)

/-- Durations of the sleeps in a trace, in order. -/
def sleepDurations (evs : List SOEvent) : List ℚ :=
  evs.filterMap (fun e => match e with | .sleep d => some d | _ => none)

/-- The summary counters accumulated in `main_async` (lines 189-205):
`ok` (delivered, including after-retry), `forbidden`, `failed`, and the
`after_retry` sub-count. -/
structure Report where
  ok : ℕ
  forbidden : ℕ
  failed : ℕ
  after_retry : ℕ
  deriving DecidableEq

/-- One iteration of the tally loop of `main_async` (lines 194-205):
`ok`/`ok_after_retry` increment `ok` (and `ok_after_retry` also
`after_retry`), `forbidden` increments `forbidden`, everything else
increments `failed`. -/
def tallyStep (rep : Report) (st : Status) : Report :=
  match st with
  | .ok => { rep with ok := rep.ok + 1 }
  | .ok_after_retry =>
      { rep with ok := rep.ok + 1, after_retry := rep.after_retry + 1 }
  | .forbidden => { rep with forbidden := rep.forbidden + 1 }
  | .failed_after_retry => { rep with failed := rep.failed + 1 }
  | .error => { rep with failed := rep.failed + 1 }

/-- The full tally over all completed tasks, starting from zero counters
(lines 189-192). -/
def tally (sts : List Status) : Report :=
  sts.foldl tallyStep ⟨0, 0, 0, 0⟩

/-- The dispatcher fan-out of `main_async` (lines 174-187): one
`send_one` task per fetched id. -/
def dispatch (rate_delay : ℚ) (behave : ℤ → Behavior) (ids : List ℤ) :
    List SendRec :=
  ids.map (fun uid => send_one uid rate_delay (behave uid))

/-- The statuses of a dispatch run. -/
def dispatchStatuses (rate_delay : ℚ) (behave : ℤ → Behavior)
    (ids : List ℤ) : List Status :=
  (dispatch rate_delay behave ids).map SendRec.status

/-- Value stored under the identifier field of a fetched document: an
integer, a string, or a value of any other type.  `none` stands for
`doc.get(id_field)` returning `None`. -/
inductive BVal
  | vint (n : ℤ)
  | vstr (s : String)
  | vother
  deriving DecidableEq

/-- The per-document acceptance test of `fetch_user_ids` (lines 58-60):
`isinstance(uid, int)` keeps any integer as is; a string is kept when
`uid.isdigit()` holds and is then coerced with `int(uid)` (modelled over
ASCII digit strings by `String.toNat?`, which succeeds exactly on
non-empty all-digit strings); everything else is skipped. -/
def acceptVal : Option BVal → Option ℤ
  | some (.vint n) => some n
  | some (.vstr s) => (s.toNat?).map Int.ofNat
  | _ => none

/-- The list `ids` built by the cursor loop (lines 56-60): the accepted,
coerced identifier of each document in cursor order. -/
def rawIds (docs : List (Option BVal)) : List ℤ :=
  docs.filterMap acceptVal

/-- Model of Python `dict.fromkeys` insertion order: keep an element when
it has not been seen before, tracking seen keys in `seen`. -/
def fromKeysAux (seen : List ℤ) : List ℤ → List ℤ
  | [] => []
  | x :: xs =>
      if x ∈ seen then fromKeysAux seen xs
      else x :: fromKeysAux (x :: seen) xs

/-- Model of `list(dict.fromkeys(ids))` (line 61): de-duplicate keeping
the first occurrence of each key, in insertion order. -/
def fromKeys (ids : List ℤ) : List ℤ :=
  fromKeysAux [] ids

/-- The pure document-processing part of `fetch_user_ids` (lines 56-61):
extract and coerce accepted identifiers, then de-duplicate preserving
first-seen order. -/
def fetch_user_ids (docs : List (Option BVal)) : List ℤ :=
  fromKeys (rawIds docs)

/-- Index of the first occurrence of `a` in a list (length of the list
when absent). -/
def firstIdx (a : ℤ) : List ℤ → ℕ
  | [] => 0
  | x :: xs => if x = a then 0 else firstIdx a xs + 1

/-- Python truthiness of an optional string: `None` and the empty string
are falsy. -/
def pyFalsy : Option String → Bool
  | none => true
  | some s => s == ""

/-- Model of `get_env` (lines 39-44): `os.getenv(name, default)`; when
`required` holds and the value is falsy (`None` or empty), print to
stderr and `sys.exit(2)`, modelled as `Except.error 2`. -/
def get_env (env : String → Option String) (name : String)
    (required : Bool) (default : Option String) : Except ℕ (Option String) :=
  let val := match env name with | some v => some v | none => default
  if required && pyFalsy val then Except.error 2 else Except.ok val

/-- A `get_env(name, required=True)` call as made by `main_async`,
yielding the (necessarily non-empty) string on success. -/
def requiredEnv (env : String → Option String) (name : String) :
    Except ℕ String :=
  match get_env env name true none with
  | Except.error c => Except.error c
  | Except.ok val => Except.ok (val.getD "")

/-- One `args.x or get_env(NAME, required=True)` resolution
(lines 131-134): a truthy command-line value wins; a falsy one (absent or
empty) falls through to the required environment lookup. -/
def resolveCfg (env : String → Option String) (argv : Option String)
    (name : String) : Except ℕ String :=
  match argv with
  | some v => if v == "" then requiredEnv env name else Except.ok v
  | none => requiredEnv env name

/-- The command-line arguments of the tool that the modelled control flow
depends on (lines 213-227).  The payload fields (`message`, `image`,
`parse_mode`) only select which API call a send attempt makes and are
abstracted into the per-recipient `Behavior`; `limit` is applied inside
the store query, so it is part of the store collaborator's reply. -/
structure Args where
  token : Option String
  mongo_uri : Option String
  mongo_db : Option String
  mongo_collection : Option String
  dry_run : Bool
  rate : ℤ
  concurrency : ℤ
  deriving DecidableEq

/-- Resolution of the four required configuration values at the top of
`main_async` (lines 131-134), in program order. -/
def resolveConfig (env : String → Option String) (a : Args) :
    Except ℕ (String × String × String × String) := do
  let token ← resolveCfg env a.token "TELEGRAM_BOT_TOKEN"
  let uri ← resolveCfg env a.mongo_uri "MONGO_URI"
  let db ← resolveCfg env a.mongo_db "MONGO_DB"
  let coll ← resolveCfg env a.mongo_collection "MONGO_COLLECTION"
  return (token, uri, db, coll)

/-- Control flow of `fetch_user_ids` (lines 47-64): any storage-layer
error (`PyMongoError`) aborts the program with exit status 1, without
retrying the fetch; otherwise the cursor's documents are processed
purely. -/
def fetch_user_ids_run (store : Except String (List (Option BVal))) :
    Except ℕ (List ℤ) :=
  match store with
  | Except.error _ => Except.error 1
  | Except.ok docs => Except.ok (fetch_user_ids docs)

/-- What a completed `main_async` run produced after configuration and
fetch succeeded: the empty-list early return (lines 146-148), the
dry-run early return (lines 152-155), or a full dispatch (lines 157-210). -/
inductive RunOutput
  | noUsers
  | dryRun (found : ℕ) (preview : List ℤ)
  | report (results : List SendRec) (rep : Report)
  deriving DecidableEq

/-- The pacing delay computed in `main_async` (lines 160-161):
`1.0 / max(1, args.rate)` seconds per message. -/
def delay_per_msg (rate : ℤ) : ℚ :=
  1 / ((max 1 rate : ℤ) : ℚ)

/-- Model of `main_async` (lines 130-210): resolve the four required
configuration values (exit 2 when missing), fetch the recipient ids
(exit 1 on a storage error), return early on an empty list or a dry run,
otherwise dispatch one `send_one` task per id and tally the outcomes.
A normally completed run is `Except.ok` — the process then exits with
status 0 even when individual sends failed. -/
def main_async (env : String → Option String) (a : Args)
    (store : Except String (List (Option BVal)))
    (behave : ℤ → Behavior) : Except ℕ RunOutput := do
  let _cfg ← resolveConfig env a
  let ids ← fetch_user_ids_run store
  if ids.isEmpty then
    return RunOutput.noUsers
  else if a.dry_run then
    return RunOutput.dryRun ids.length (ids.take (min 10 ids.length))
  else
    let results := dispatch (delay_per_msg a.rate) behave ids
    return RunOutput.report results (tally (results.map SendRec.status))

/-- The text printed for `None` by Python `print`. -/
def errText : Option String → String
  | none => "None"
  | some s => s

/-- The per-outcome line printed by the tally loop of `main_async`:
forbidden recipients get a "Forbidden" line (line 202), failed ones a
"Failed" line carrying the error description (line 205); successful
sends print nothing. -/
def outcomeLine (r : SendRec) : Option String :=
  match r.status with
  | Status.forbidden =>
      some ("[" ++ toString r.uid ++ "] Forbidden (blocked or never started bot).")
  | Status.error =>
      some ("[" ++ toString r.uid ++ "] Failed: " ++ errText r.err)
  | Status.failed_after_retry =>
      some ("[" ++ toString r.uid ++ "] Failed: " ++ errText r.err)
  | _ => none

/-- The final summary block of `main_async` (lines 207-210). -/
def summaryLines (rep : Report) : List String :=
  ["\n--- SUMMARY ---",
    "Delivered: " ++ toString rep.ok ++ " (including "
      ++ toString rep.after_retry ++ " after retry)",
    "Forbidden/blocked: " ++ toString rep.forbidden,
    "Failed: " ++ toString rep.failed]

/-- Everything `main_async` prints after configuration and fetch succeed
(lines 146-210). -/
def printedLines : RunOutput → List String
  | RunOutput.noUsers =>
      ["No user IDs found. Check your collection and id_field."]
  | RunOutput.dryRun found preview =>
      ["Found " ++ toString found ++ " unique user ids.",
        "[DRY RUN] Would send to first IDs: " ++ toString preview ++ " ..."]
  | RunOutput.report results rep =>
      ("Found " ++ toString results.length ++ " unique user ids.")
        :: (results.filterMap outcomeLine ++ summaryLines rep)

/-- Concrete argument record used in witnesses: all required
configuration supplied on the command line, defaults elsewhere. -/
def demoArgs : Args :=
  { token := some "tok", mongo_uri := some "uri", mongo_db := some "db",
    mongo_collection := some "coll", dry_run := false, rate := 15,
    concurrency := 1 }

/-- Concrete argument record with the bot credential missing both on the
command line and in the environment. -/
def demoArgsNoToken : Args :=
  { demoArgs with token := none }

/-- The backoff sleeps a task performs, as a function of its first
attempt's result: only a first `RetryAfter` introduces one, of
`retry_after + 1` seconds (line 108). -/
def backoffSleeps : AttemptResult → List ℚ
  | .retryAfter r _ => [r + 1]
  | _ => []

/-- Program counter of one `send_one` task under the cooperative
scheduler: in the pacing sleep, waiting on the semaphore, holding the
semaphore with the first send's network call open, holding it during the
backoff sleep, holding it with the retry's network call open, or done
with a terminal status. -/
inductive PC
  | pacing
  | waitSem
  | sending1
  | backoff
  | sending2
  | done (st : Status) (err : Option String)
  deriving DecidableEq

/-- Whether a task currently holds a concurrency slot, i.e. is inside the
body of `async with semaphore:` (lines 79-127). -/
def holdsSlot : PC → Bool
  | .sending1 => true
  | .backoff => true
  | .sending2 => true
  | _ => false

/-- Whether a task currently has a network call open. -/
def sendOpen : PC → Bool
  | .sending1 => true
  | .sending2 => true
  | _ => false

/-- Terminal classification of a first attempt that did not raise
`RetryAfter` (lines 105 and 121-127); `none` on `RetryAfter`, which
instead enters the backoff. -/
def classify1 : AttemptResult → Option (Status × Option String)
  | .ok => some (.ok, none)
  | .retryAfter _ _ => none
  | .forbidden m => some (.forbidden, some m)
  | .badRequest m => some (.error, some m)
  | .networkError m => some (.error, some m)
  | .timedOut m => some (.error, some m)
  | .otherExc _ rm => some (.error, some rm)

/-- Terminal classification of the second attempt (lines 109-120):
success is `ok_after_retry`; any exception — a second `RetryAfter`
included — is `failed_after_retry` with `str(e2)`. -/
def classify2 : AttemptResult → Status × Option String
  | .ok => (.ok_after_retry, none)
  | e => (.failed_after_retry, strOf e)

/-- Global state of the cooperative scheduler: one program counter per
task (positionally paired with the behaviour list) and the semaphore's
available count. -/
structure Sys where
  pcs : List PC
  avail : ℕ
  deriving DecidableEq

/-- The effective concurrency cap `max(1, args.concurrency)`
(line 162). -/
def effCap (c : ℤ) : ℕ := (max 1 c).toNat

/-- Number of tasks currently holding a concurrency slot. -/
def holders (pcs : List PC) : ℕ := pcs.countP holdsSlot

/-- Number of tasks currently inside a network call. -/
def inFlight (pcs : List PC) : ℕ := pcs.countP sendOpen

/-- One cooperative scheduling step.  Each constructor resumes one task
at one of its suspension points, mirroring `send_one` under `asyncio`:
the pacing sleep completes; the semaphore is acquired only when a slot is
available, decrementing the count; a first attempt either raises
`RetryAfter` — the task proceeds to the backoff sleep still holding its
slot — or terminates, releasing the slot; the backoff sleep completes,
the slot still held; the second attempt terminates and releases the
slot.  Releases happen exactly at the transitions that record a terminal
outcome, because the `async with` block spans the whole handler. -/
inductive Step (bs : List Behavior) : Sys → Sys → Prop
  | pacingDone (i : ℕ) (s : Sys) (h : s.pcs.get? i = some PC.pacing) :
      Step bs s ⟨s.pcs.set i PC.waitSem, s.avail⟩
  | acquire (i : ℕ) (s : Sys) (h : s.pcs.get? i = some PC.waitSem)
      (ha : 0 < s.avail) :
      Step bs s ⟨s.pcs.set i PC.sending1, s.avail - 1⟩
  | firstRetry (i : ℕ) (s : Sys) (b : Behavior) (r : ℚ) (m : String)
      (h : s.pcs.get? i = some PC.sending1) (hb : bs.get? i = some b)
      (hf : b.first = AttemptResult.retryAfter r m) :
      Step bs s ⟨s.pcs.set i PC.backoff, s.avail⟩
  | firstDone (i : ℕ) (s : Sys) (b : Behavior) (out : Status × Option String)
      (h : s.pcs.get? i = some PC.sending1) (hb : bs.get? i = some b)
      (hf : classify1 b.first = some out) :
      Step bs s ⟨s.pcs.set i (PC.done out.1 out.2), s.avail + 1⟩
  | backoffDone (i : ℕ) (s : Sys) (h : s.pcs.get? i = some PC.backoff) :
      Step bs s ⟨s.pcs.set i PC.sending2, s.avail⟩
  | secondDone (i : ℕ) (s : Sys) (b : Behavior)
      (h : s.pcs.get? i = some PC.sending2) (hb : bs.get? i = some b) :
      Step bs s
        ⟨s.pcs.set i (PC.done (classify2 b.second).1 (classify2 b.second).2),
          s.avail + 1⟩

/-- The initial state of a run with concurrency argument `c`: every task
before its pacing sleep, and `asyncio.Semaphore(max(1, c))` fully
available (lines 162, 172). -/
def initSys (bs : List Behavior) (c : ℤ) : Sys :=
  ⟨bs.map (fun _ => PC.pacing), effCap c⟩

/-- The states reachable during a run. -/
inductive Reach (bs : List Behavior) (c : ℤ) : Sys → Prop
  | init : Reach bs c (initSys bs c)
  | step (s s' : Sys) (hs : Reach bs c s) (hstep : Step bs s s') :
      Reach bs c s'

/- ------------------------------------------------------------------ -/
/- Helper lemmas                                                      -/
/- ------------------------------------------------------------------ -/

theorem tally_foldl (sts : List Status) : ∀ rep : Report,
    sts.foldl tallyStep rep =
      ⟨rep.ok + sts.count .ok + sts.count .ok_after_retry,
        rep.forbidden + sts.count .forbidden,
        rep.failed + sts.count .error + sts.count .failed_after_retry,
        rep.after_retry + sts.count .ok_after_retry⟩ := by
  induction sts with
  | nil => intro rep; simp [List.count]
  | cons s rest ih =>
      intro rep
      cases s <;>
        simp [List.foldl, ih, tallyStep, List.count_cons] <;> omega

theorem status_count_partition (sts : List Status) :
    sts.count .ok + sts.count .ok_after_retry + sts.count .forbidden
      + sts.count .error + sts.count .failed_after_retry = sts.length := by
  induction sts with
  | nil => simp [List.count]
  | cons s rest ih =>
      cases s <;> simp [List.count_cons] <;> omega

/- ------------------------------------------------------------------ -/
/- Claim theorems: C1, C2, C3                                         -/
/- ------------------------------------------------------------------ -/

/-- C1: every recipient in the fetched list yields exactly one terminal
outcome (the dispatch produces one result per id), the four terminal
outcome kinds — delivered (`ok`), delivered-after-retry, forbidden,
failed (`error` or `failed_after_retry`) — partition the total, and the
report counters are exactly these counts with `after_retry` counting
toward both `ok` and its own sub-count, so that
delivered + delivered_after_retry + forbidden + failed = total. -/
theorem dispatch_outcome_partition (rate_delay : ℚ) (behave : ℤ → Behavior)
    (ids : List ℤ) :
    (dispatch rate_delay behave ids).length = ids.length
    ∧ (dispatchStatuses rate_delay behave ids).count .ok
        + (dispatchStatuses rate_delay behave ids).count .ok_after_retry
        + (dispatchStatuses rate_delay behave ids).count .forbidden
        + ((dispatchStatuses rate_delay behave ids).count .error
            + (dispatchStatuses rate_delay behave ids).count .failed_after_retry)
        = ids.length
    ∧ tally (dispatchStatuses rate_delay behave ids) =
        ⟨(dispatchStatuses rate_delay behave ids).count .ok
            + (dispatchStatuses rate_delay behave ids).count .ok_after_retry,
          (dispatchStatuses rate_delay behave ids).count .forbidden,
          (dispatchStatuses rate_delay behave ids).count .error
            + (dispatchStatuses rate_delay behave ids).count .failed_after_retry,
          (dispatchStatuses rate_delay behave ids).count .ok_after_retry⟩
    ∧ (tally (dispatchStatuses rate_delay behave ids)).ok
        + (tally (dispatchStatuses rate_delay behave ids)).forbidden
        + (tally (dispatchStatuses rate_delay behave ids)).failed
        = ids.length := by
  have hlen : (dispatch rate_delay behave ids).length = ids.length := by
    simp [dispatch]
  have hslen : (dispatchStatuses rate_delay behave ids).length = ids.length := by
    simp [dispatchStatuses, dispatch]
  have hpart := status_count_partition (dispatchStatuses rate_delay behave ids)
  have htal := tally_foldl (dispatchStatuses rate_delay behave ids) ⟨0, 0, 0, 0⟩
  refine ⟨hlen, by omega, ?_, ?_⟩
  · simpa [tally] using htal
  · have : tally (dispatchStatuses rate_delay behave ids) =
        ⟨(dispatchStatuses rate_delay behave ids).count .ok
            + (dispatchStatuses rate_delay behave ids).count .ok_after_retry,
          (dispatchStatuses rate_delay behave ids).count .forbidden,
          (dispatchStatuses rate_delay behave ids).count .error
            + (dispatchStatuses rate_delay behave ids).count .failed_after_retry,
          (dispatchStatuses rate_delay behave ids).count .ok_after_retry⟩ := by
      simpa [tally] using htal
    rw [this]
    simp only []
    omega

/-- C2: when the first attempt raises `RetryAfter(retry_after)`, the task
sleeps `retry_after + 1` seconds between the first and second attempt,
makes exactly one more attempt (two in total, no further retries); if the
second attempt succeeds the status is `ok_after_retry`, and if it raises
any exception (including a second `RetryAfter`) the status is
`failed_after_retry` carrying the second attempt's `str(e2)`. -/
theorem retry_after_policy (uid : ℤ) (rate_delay r : ℚ) (m : String)
    (b : Behavior) (h : b.first = .retryAfter r m) :
    (send_one uid rate_delay b).events
        = [.sleep rate_delay, .acquireSem, .attempt 1,
            .sleep (r + 1), .attempt 2, .releaseSem]
    ∧ numAttempts (send_one uid rate_delay b).events = 2
    ∧ (b.second = .ok →
        (send_one uid rate_delay b).status = .ok_after_retry
          ∧ (send_one uid rate_delay b).err = none)
    ∧ (b.second ≠ .ok →
        (send_one uid rate_delay b).status = .failed_after_retry
          ∧ (send_one uid rate_delay b).err = strOf b.second) := by
  obtain ⟨f, s⟩ := b
  simp only [] at h
  subst h
  cases s <;> simp [send_one, numAttempts, strOf, List.countP_cons]

/-- C2 witness: a concrete recipient rate-limited with `retry_after = 2`
whose second attempt succeeds. -/
theorem retry_after_policy_witness :
    (send_one 7 (1/15) ⟨.retryAfter 2 "flood", .ok⟩).status = .ok_after_retry
    ∧ (send_one 7 (1/15) ⟨.retryAfter 2 "flood", .ok⟩).events
        = [.sleep (1/15), .acquireSem, .attempt 1,
            .sleep 3, .attempt 2, .releaseSem] := by
  obtain ⟨hev, -, hok, -⟩ :=
    retry_after_policy 7 (1/15) 2 "flood" ⟨.retryAfter 2 "flood", .ok⟩ rfl
  refine ⟨(hok rfl).1, ?_⟩
  rw [hev]
  norm_num

/-- C3: when the first attempt raises `Forbidden`, the outcome is
`forbidden` with the exception's description, produced immediately after a
single send attempt: no backoff sleep and no second attempt occur. -/
theorem forbidden_policy (uid : ℤ) (rate_delay : ℚ) (m : String)
    (b : Behavior) (h : b.first = .forbidden m) :
    (send_one uid rate_delay b).status = .forbidden
    ∧ (send_one uid rate_delay b).err = some m
    ∧ (send_one uid rate_delay b).events
        = [.sleep rate_delay, .acquireSem, .attempt 1, .releaseSem]
    ∧ numAttempts (send_one uid rate_delay b).events = 1 := by
  obtain ⟨f, s⟩ := b
  simp only [] at h
  subst h
  simp [send_one, numAttempts, List.countP_cons]

/-- C3 witness: a concrete blocked recipient. -/
theorem forbidden_policy_witness :
    (send_one 9 (1/15) ⟨.forbidden "blocked", .ok⟩).status = .forbidden
    ∧ numAttempts (send_one 9 (1/15) ⟨.forbidden "blocked", .ok⟩).events = 1 := by
  obtain ⟨h1, -, -, h4⟩ :=
    forbidden_policy 9 (1/15) "blocked" ⟨.forbidden "blocked", .ok⟩ rfl
  exact ⟨h1, h4⟩

theorem mem_fromKeysAux (x : ℤ) : ∀ (l seen : List ℤ),
    x ∈ fromKeysAux seen l ↔ x ∈ l ∧ x ∉ seen := by
  intro l
  induction l with
  | nil => intro seen; simp [fromKeysAux]
  | cons y ys ih =>
      intro seen
      by_cases hy : y ∈ seen
      · simp only [fromKeysAux, if_pos hy, ih, List.mem_cons]
        constructor
        · rintro ⟨hx, hns⟩; exact ⟨Or.inr hx, hns⟩
        · rintro ⟨rfl | hx, hns⟩
          · exact absurd hy hns
          · exact ⟨hx, hns⟩
      · simp only [fromKeysAux, if_neg hy, List.mem_cons, ih, not_or]
        constructor
        · rintro (rfl | ⟨hx, hne, hns⟩)
          · exact ⟨Or.inl rfl, hy⟩
          · exact ⟨Or.inr hx, hns⟩
        · rintro ⟨rfl | hx, hns⟩
          · exact Or.inl rfl
          · by_cases hxy : x = y
            · exact Or.inl hxy
            · exact Or.inr ⟨hx, hxy, hns⟩

theorem nodup_fromKeysAux : ∀ (l seen : List ℤ), (fromKeysAux seen l).Nodup := by
  intro l
  induction l with
  | nil => intro seen; simp [fromKeysAux]
  | cons y ys ih =>
      intro seen
      by_cases hy : y ∈ seen
      · simpa [fromKeysAux, hy] using ih seen
      · simp only [fromKeysAux, if_neg hy]
        refine List.nodup_cons.mpr ⟨?_, ih (y :: seen)⟩
        intro hmem
        rcases (mem_fromKeysAux y ys (y :: seen)).1 hmem with ⟨-, hns⟩
        exact hns (List.mem_cons_self y seen)

theorem fromKeysAux_sublist : ∀ (l seen : List ℤ), List.Sublist (fromKeysAux seen l) l := by
  intro l
  induction l with
  | nil => intro seen; simp [fromKeysAux]
  | cons y ys ih =>
      intro seen
      by_cases hy : y ∈ seen
      · simp only [fromKeysAux, if_pos hy]
        exact (ih seen).trans (List.sublist_cons_self y ys)
      · simp only [fromKeysAux, if_neg hy]
        exact (ih (y :: seen)).cons₂ y

theorem pairwise_firstIdx_fromKeysAux : ∀ (l seen : List ℤ),
    List.Pairwise (fun a b => firstIdx a l < firstIdx b l)
      (fromKeysAux seen l) := by
  intro l
  induction l with
  | nil => intro seen; simp [fromKeysAux]
  | cons y ys ih =>
      intro seen
      by_cases hy : y ∈ seen
      · simp only [fromKeysAux, if_pos hy]
        refine (ih seen).imp_of_mem ?_
        intro a b ha hb hab
        have hfa := (mem_fromKeysAux a ys seen).1 ha
        have hfb := (mem_fromKeysAux b ys seen).1 hb
        have hya : ¬ (y = a) := fun h => hfa.2 (h ▸ hy)
        have hyb : ¬ (y = b) := fun h => hfb.2 (h ▸ hy)
        have h1 : firstIdx a (y :: ys) = firstIdx a ys + 1 := by
          simp [firstIdx, hya]
        have h2 : firstIdx b (y :: ys) = firstIdx b ys + 1 := by
          simp [firstIdx, hyb]
        omega
      · simp only [fromKeysAux, if_neg hy]
        refine List.pairwise_cons.mpr ⟨?_, ?_⟩
        · intro b hb
          have hfb := (mem_fromKeysAux b ys (y :: seen)).1 hb
          have hyb : ¬ (y = b) := fun h =>
            hfb.2 (h ▸ List.mem_cons_self y seen)
          have h1 : firstIdx y (y :: ys) = 0 := by simp [firstIdx]
          have h2 : firstIdx b (y :: ys) = firstIdx b ys + 1 := by
            simp [firstIdx, hyb]
          omega
        · refine (ih (y :: seen)).imp_of_mem ?_
          intro a b ha hb hab
          have hfa := (mem_fromKeysAux a ys (y :: seen)).1 ha
          have hfb := (mem_fromKeysAux b ys (y :: seen)).1 hb
          have hya : ¬ (y = a) := fun h =>
            hfa.2 (h ▸ List.mem_cons_self y seen)
          have hyb : ¬ (y = b) := fun h =>
            hfb.2 (h ▸ List.mem_cons_self y seen)
          have h1 : firstIdx a (y :: ys) = firstIdx a ys + 1 := by
            simp [firstIdx, hya]
          have h2 : firstIdx b (y :: ys) = firstIdx b ys + 1 := by
            simp [firstIdx, hyb]
          omega

/-- C6: the Recipient Source accepts exactly the documents whose
identifier value is an integer or an all-digit string (coerced to an
integer by `acceptVal`, collected in order by `rawIds`), and its output
has no duplicates, is a subsequence of the accepted list, contains
exactly the accepted identifiers, and lists them in strictly increasing
order of first occurrence in the accepted list. -/
theorem fetch_user_ids_spec (docs : List (Option BVal)) :
    (fetch_user_ids docs).Nodup
    ∧ (∀ x, x ∈ fetch_user_ids docs ↔ x ∈ rawIds docs)
    ∧ List.Sublist (fetch_user_ids docs) (rawIds docs)
    ∧ List.Pairwise
        (fun a b => firstIdx a (rawIds docs) < firstIdx b (rawIds docs))
        (fetch_user_ids docs) := by
  refine ⟨nodup_fromKeysAux _ _, ?_, fromKeysAux_sublist _ _,
    pairwise_firstIdx_fromKeysAux _ _⟩
  intro x
  rw [fetch_user_ids, fromKeys, mem_fromKeysAux]
  simp

/-- C8 counterexample: a stored document whose identifier field holds the
Python integer `-5` passes the `isinstance(uid, int)` test, so the
Recipient Source emits `-5`, which is not a positive integer. -/
theorem recipient_positive_cex :
    fetch_user_ids [some (BVal.vint (-5))] = [-5] ∧ ¬ (0 < (-5 : ℤ)) := by
  decide

/-- C8 amended: every identifier produced by the Recipient Source is an
integer (integer-typed stored values may be zero or negative), and
identifiers are unique within a dispatch run. -/
theorem recipient_ids_unique (docs : List (Option BVal)) :
    (fetch_user_ids docs).Nodup :=
  nodup_fromKeysAux _ _

theorem except_bind_ok {α β γ : Type} (x : α) (f : α → Except γ β) :
    (Except.ok x >>= f) = f x := rfl

theorem except_bind_error {α β γ : Type} (e : γ) (f : α → Except γ β) :
    ((Except.error e : Except γ α) >>= f) = Except.error e := rfl

theorem except_map_ok {α β γ : Type} (x : α) (f : α → β) :
    (f <$> (Except.ok x : Except γ α)) = Except.ok (f x) := rfl

theorem except_map_error {α β γ : Type} (e : γ) (f : α → β) :
    (f <$> (Except.error e : Except γ α)) = Except.error e := rfl

theorem get_env_error_eq_two (env : String → Option String) (name : String)
    (req : Bool) (default : Option String) (c : ℕ)
    (h : get_env env name req default = Except.error c) : c = 2 := by
  simp only [get_env] at h
  split at h
  · exact (Except.error.inj h).symm
  · exact absurd h (by simp)

theorem requiredEnv_error_eq_two (env : String → Option String)
    (name : String) (c : ℕ)
    (h : requiredEnv env name = Except.error c) : c = 2 := by
  unfold requiredEnv at h
  cases hg : get_env env name true none with
  | error e =>
      rw [hg] at h
      simp only [] at h
      have he := get_env_error_eq_two env name true none e hg
      have hec := Except.error.inj h
      omega
  | ok val =>
      rw [hg] at h
      simp at h

theorem resolveCfg_error_eq_two (env : String → Option String)
    (argv : Option String) (name : String) (c : ℕ)
    (h : resolveCfg env argv name = Except.error c) : c = 2 := by
  cases argv with
  | none =>
      simp only [resolveCfg] at h
      exact requiredEnv_error_eq_two env name c h
  | some v =>
      simp only [resolveCfg] at h
      by_cases hv : (v == "") = true
      · rw [if_pos hv] at h
        exact requiredEnv_error_eq_two env name c h
      · rw [if_neg hv] at h
        simp at h

theorem resolveConfig_error_eq_two (env : String → Option String) (a : Args)
    (c : ℕ) (h : resolveConfig env a = Except.error c) : c = 2 := by
  unfold resolveConfig at h
  cases h1 : resolveCfg env a.token "TELEGRAM_BOT_TOKEN" with
  | error e =>
      rw [h1, except_bind_error] at h
      have := resolveCfg_error_eq_two env a.token "TELEGRAM_BOT_TOKEN" e h1
      have hec := Except.error.inj h
      omega
  | ok t =>
      rw [h1, except_bind_ok] at h
      cases h2 : resolveCfg env a.mongo_uri "MONGO_URI" with
      | error e =>
          rw [h2, except_bind_error] at h
          have := resolveCfg_error_eq_two env a.mongo_uri "MONGO_URI" e h2
          have hec := Except.error.inj h
          omega
      | ok u =>
          rw [h2, except_bind_ok] at h
          cases h3 : resolveCfg env a.mongo_db "MONGO_DB" with
          | error e =>
              rw [h3, except_bind_error] at h
              have := resolveCfg_error_eq_two env a.mongo_db "MONGO_DB" e h3
              have hec := Except.error.inj h
              omega
          | ok d =>
              rw [h3, except_bind_ok] at h
              cases h4 : resolveCfg env a.mongo_collection "MONGO_COLLECTION" with
              | error e =>
                  rw [h4] at h
                  simp [except_map_error] at h
                  have := resolveCfg_error_eq_two env a.mongo_collection
                    "MONGO_COLLECTION" e h4
                  omega
              | ok l =>
                  rw [h4] at h
                  simp [except_map_ok] at h

theorem main_async_of_config_ok (env : String → Option String) (a : Args)
    (store : Except String (List (Option BVal))) (behave : ℤ → Behavior)
    (cfg : String × String × String × String)
    (hcfg : resolveConfig env a = Except.ok cfg) :
    main_async env a store behave =
      (do
        let ids ← fetch_user_ids_run store
        if ids.isEmpty then
          pure RunOutput.noUsers
        else if a.dry_run then
          pure (RunOutput.dryRun ids.length (ids.take (min 10 ids.length)))
        else
          pure (RunOutput.report
            (dispatch (delay_per_msg a.rate) behave ids)
            (tally ((dispatch (delay_per_msg a.rate) behave ids).map
              SendRec.status)))) := by
  unfold main_async
  rw [hcfg, except_bind_ok]

/-- C7: the run's exit status is 0 (a normally completed `main_async`,
regardless of per-recipient failures) whenever the four required
configuration values resolve and the store fetch succeeds; the status is
1 when the store fetch fails, with no retry of the fetch; and a
configuration resolution failure always aborts with status 2. -/
theorem exit_code_contract (env : String → Option String) (a : Args)
    (store : Except String (List (Option BVal))) (behave : ℤ → Behavior) :
    (∀ cfg, resolveConfig env a = Except.ok cfg →
      ((∀ docs, store = Except.ok docs →
          ∃ out, main_async env a store behave = Except.ok out)
        ∧ (∀ msg, store = Except.error msg →
            main_async env a store behave = Except.error 1)))
    ∧ (∀ c, resolveConfig env a = Except.error c →
        c = 2 ∧ main_async env a store behave = Except.error c) := by
  constructor
  · intro cfg hcfg
    constructor
    · intro docs hstore
      rw [main_async_of_config_ok env a store behave cfg hcfg, hstore]
      by_cases hne : fetch_user_ids docs = []
      · refine ⟨RunOutput.noUsers, ?_⟩
        simp [fetch_user_ids_run, except_bind_ok, hne]
        rfl
      · by_cases hdry : a.dry_run
        · refine ⟨RunOutput.dryRun (fetch_user_ids docs).length
            ((fetch_user_ids docs).take (min 10 (fetch_user_ids docs).length)), ?_⟩
          simp [fetch_user_ids_run, except_bind_ok, hne, hdry]
          rfl
        · refine ⟨RunOutput.report
            (dispatch (delay_per_msg a.rate) behave (fetch_user_ids docs))
            (tally ((dispatch (delay_per_msg a.rate) behave
              (fetch_user_ids docs)).map SendRec.status)), ?_⟩
          simp [fetch_user_ids_run, except_bind_ok, hne, hdry]
          rfl
    · intro msg hstore
      rw [main_async_of_config_ok env a store behave cfg hcfg, hstore]
      rfl
  · intro c hc
    refine ⟨resolveConfig_error_eq_two env a c hc, ?_⟩
    unfold main_async
    rw [hc, except_bind_error]

/-- C7 witness: with all configuration given, an empty successful fetch
completes normally; a failing store exits 1; a missing bot credential
exits 2. -/
theorem exit_code_contract_witness :
    main_async (fun _ => none) demoArgs (Except.error "server down")
        (fun _ => ⟨AttemptResult.ok, AttemptResult.ok⟩) = Except.error 1
    ∧ main_async (fun _ => none) demoArgsNoToken (Except.ok [])
        (fun _ => ⟨AttemptResult.ok, AttemptResult.ok⟩) = Except.error 2
    ∧ main_async (fun _ => none) demoArgs (Except.ok [])
        (fun _ => ⟨AttemptResult.ok, AttemptResult.ok⟩)
        = Except.ok RunOutput.noUsers := by
  have herr := exit_code_contract (fun _ => none) demoArgs
    (Except.error "server down")
    (fun _ => ⟨AttemptResult.ok, AttemptResult.ok⟩)
  have hbad := exit_code_contract (fun _ => none) demoArgsNoToken
    (Except.ok []) (fun _ => ⟨AttemptResult.ok, AttemptResult.ok⟩)
  exact ⟨(herr.1 ("tok", "uri", "db", "coll") (by rfl)).2 "server down" rfl,
    (hbad.2 2 (by rfl)).2, by rfl⟩

/-- C9 counterexample: a run whose configuration loading and recipient
fetch both succeed, but whose fetch yields zero recipients, prints only
the "No user IDs found" line — no final summary — so the claim as stated
fails for such runs. -/
theorem report_printed_cex :
    main_async (fun _ => none) demoArgs (Except.ok [])
        (fun _ => ⟨AttemptResult.ok, AttemptResult.ok⟩)
      = Except.ok RunOutput.noUsers
    ∧ "\n--- SUMMARY ---" ∉ printedLines RunOutput.noUsers := by
  refine ⟨by rfl, by decide⟩

/-- C9 amended: for every run that passes configuration loading and the
recipient fetch, yields at least one recipient, and is not a dry run, a
final summary report is always printed — even if every send failed — and
each failed recipient is enumerated individually with its identifier and
error description. -/
theorem report_printed (env : String → Option String) (a : Args)
    (store : Except String (List (Option BVal))) (behave : ℤ → Behavior)
    (cfg : String × String × String × String)
    (docs : List (Option BVal))
    (hcfg : resolveConfig env a = Except.ok cfg)
    (hstore : store = Except.ok docs)
    (hne : fetch_user_ids docs ≠ [])
    (hdry : a.dry_run = false) :
    main_async env a store behave
      = Except.ok (RunOutput.report
          (dispatch (delay_per_msg a.rate) behave (fetch_user_ids docs))
          (tally ((dispatch (delay_per_msg a.rate) behave
            (fetch_user_ids docs)).map SendRec.status)))
    ∧ "\n--- SUMMARY ---" ∈ printedLines (RunOutput.report
          (dispatch (delay_per_msg a.rate) behave (fetch_user_ids docs))
          (tally ((dispatch (delay_per_msg a.rate) behave
            (fetch_user_ids docs)).map SendRec.status)))
    ∧ ∀ r ∈ dispatch (delay_per_msg a.rate) behave (fetch_user_ids docs),
        (r.status = Status.error ∨ r.status = Status.failed_after_retry) →
        ("[" ++ toString r.uid ++ "] Failed: " ++ errText r.err)
          ∈ printedLines (RunOutput.report
              (dispatch (delay_per_msg a.rate) behave (fetch_user_ids docs))
              (tally ((dispatch (delay_per_msg a.rate) behave
                (fetch_user_ids docs)).map SendRec.status))) := by
  refine ⟨?_, ?_, ?_⟩
  · rw [main_async_of_config_ok env a store behave cfg hcfg, hstore]
    simp [fetch_user_ids_run, except_bind_ok, hne, hdry]
    rfl
  · simp only [printedLines, summaryLines]
    exact List.mem_cons_of_mem _
      (List.mem_append_right _ (List.mem_cons_self _ _))
  · intro r hr hfail
    simp only [printedLines]
    refine List.mem_cons_of_mem _ (List.mem_append_left _ ?_)
    refine List.mem_filterMap.mpr ⟨r, hr, ?_⟩
    rcases hfail with h | h <;> simp [outcomeLine, h]

/-- C9 witness: a concrete run with a single recipient whose send fails
with a `BadRequest`; the summary line and the per-failure line are both
printed. -/
theorem report_printed_witness :
    main_async (fun _ => none) demoArgs (Except.ok [some (BVal.vint 5)])
        (fun _ => ⟨AttemptResult.badRequest "boom", AttemptResult.ok⟩)
      = Except.ok (RunOutput.report
          (dispatch (delay_per_msg demoArgs.rate)
            (fun _ => ⟨AttemptResult.badRequest "boom", AttemptResult.ok⟩)
            (fetch_user_ids [some (BVal.vint 5)]))
          (tally ((dispatch (delay_per_msg demoArgs.rate)
            (fun _ => ⟨AttemptResult.badRequest "boom", AttemptResult.ok⟩)
            (fetch_user_ids [some (BVal.vint 5)])).map SendRec.status)))
    ∧ ("[" ++ toString (send_one 5 (delay_per_msg demoArgs.rate)
          ⟨AttemptResult.badRequest "boom", AttemptResult.ok⟩).uid
        ++ "] Failed: "
        ++ errText (send_one 5 (delay_per_msg demoArgs.rate)
          ⟨AttemptResult.badRequest "boom", AttemptResult.ok⟩).err)
      ∈ printedLines (RunOutput.report
          (dispatch (delay_per_msg demoArgs.rate)
            (fun _ => ⟨AttemptResult.badRequest "boom", AttemptResult.ok⟩)
            (fetch_user_ids [some (BVal.vint 5)]))
          (tally ((dispatch (delay_per_msg demoArgs.rate)
            (fun _ => ⟨AttemptResult.badRequest "boom", AttemptResult.ok⟩)
            (fetch_user_ids [some (BVal.vint 5)])).map SendRec.status))) := by
  have h := report_printed (fun _ => none) demoArgs
    (Except.ok [some (BVal.vint 5)])
    (fun _ => ⟨AttemptResult.badRequest "boom", AttemptResult.ok⟩)
    ("tok", "uri", "db", "coll") [some (BVal.vint 5)]
    rfl rfl (by decide) rfl
  refine ⟨h.1, h.2.2 (send_one 5 (delay_per_msg demoArgs.rate)
    ⟨AttemptResult.badRequest "boom", AttemptResult.ok⟩) ?_ ?_⟩
  · exact List.mem_singleton.mpr rfl
  · exact Or.inl rfl

theorem countP_set (p : PC → Bool) : ∀ (l : List PC) (i : ℕ) (a b : PC),
    l.get? i = some a →
    (l.set i b).countP p + (if p a then 1 else 0)
      = l.countP p + (if p b then 1 else 0) := by
  intro l
  induction l with
  | nil => intro i a b h; simp at h
  | cons x xs ih =>
      intro i a b h
      cases i with
      | zero =>
          simp only [List.get?] at h
          injection h with h
          subst h
          simp only [List.set, List.countP_cons]
          omega
      | succ n =>
          simp only [List.get?] at h
          have := ih n a b h
          simp only [List.set, List.countP_cons]
          omega

theorem holders_init (bs : List Behavior) :
    holders (bs.map (fun _ => PC.pacing)) = 0 := by
  induction bs with
  | nil => simp [holders]
  | cons b rest ih =>
      simp only [List.map, holders, List.countP_cons] at ih ⊢
      simp [holdsSlot, ih]

theorem reach_invariant (bs : List Behavior) (c : ℤ) (s : Sys)
    (h : Reach bs c s) :
    s.avail + holders s.pcs = effCap c ∧ s.pcs.length = bs.length := by
  induction h with
  | init =>
      refine ⟨?_, by simp [initSys]⟩
      show effCap c + holders (bs.map (fun _ => PC.pacing)) = effCap c
      rw [holders_init bs]
      omega
  | step s s' hs hstep ih =>
      obtain ⟨ih1, ih2⟩ := ih
      cases hstep with
      | pacingDone i s h =>
          have hcs := countP_set holdsSlot s.pcs i PC.pacing PC.waitSem h
          simp [holdsSlot] at hcs
          refine ⟨?_, by simp [ih2]⟩
          simp only [holders] at ih1 ⊢
          omega
      | acquire i s h ha =>
          have hcs := countP_set holdsSlot s.pcs i PC.waitSem PC.sending1 h
          simp [holdsSlot] at hcs
          refine ⟨?_, by simp [ih2]⟩
          simp only [holders] at ih1 ⊢
          omega
      | firstRetry i s b r m h hb hf =>
          have hcs := countP_set holdsSlot s.pcs i PC.sending1 PC.backoff h
          simp [holdsSlot] at hcs
          refine ⟨?_, by simp [ih2]⟩
          simp only [holders] at ih1 ⊢
          omega
      | firstDone i s b out h hb hf =>
          have hcs := countP_set holdsSlot s.pcs i PC.sending1
            (PC.done out.1 out.2) h
          simp [holdsSlot] at hcs
          refine ⟨?_, by simp [ih2]⟩
          simp only [holders] at ih1 ⊢
          omega
      | backoffDone i s h =>
          have hcs := countP_set holdsSlot s.pcs i PC.backoff PC.sending2 h
          simp [holdsSlot] at hcs
          refine ⟨?_, by simp [ih2]⟩
          simp only [holders] at ih1 ⊢
          omega
      | secondDone i s b h hb =>
          have hcs := countP_set holdsSlot s.pcs i PC.sending2
            (PC.done (classify2 b.second).1 (classify2 b.second).2) h
          simp [holdsSlot] at hcs
          refine ⟨?_, by simp [ih2]⟩
          simp only [holders] at ih1 ⊢
          omega

theorem two_le_countP (p : PC → Bool) : ∀ (l : List PC) (i j : ℕ) (a b : PC),
    i ≠ j → l.get? i = some a → l.get? j = some b →
    p a = true → p b = true → 2 ≤ l.countP p := by
  intro l
  induction l with
  | nil => intro i j a b hij ha hb pa pb; simp at ha
  | cons x xs ih =>
      intro i j a b hij ha hb pa pb
      cases i with
      | zero =>
          cases j with
          | zero => exact absurd rfl hij
          | succ n =>
              simp only [List.get?] at ha hb
              injection ha with ha
              subst ha
              have hmem : b ∈ xs := List.get?_mem hb
              have hpos : 0 < xs.countP p :=
                List.countP_pos_iff.mpr ⟨b, hmem, pb⟩
              rw [List.countP_cons_of_pos _ _ pa]
              omega
      | succ n =>
          cases j with
          | zero =>
              simp only [List.get?] at ha hb
              injection hb with hb
              subst hb
              have hmem : a ∈ xs := List.get?_mem ha
              have hpos : 0 < xs.countP p :=
                List.countP_pos_iff.mpr ⟨a, hmem, pa⟩
              rw [List.countP_cons_of_pos _ _ pb]
              omega
          | succ m =>
              simp only [List.get?] at ha hb
              have hnm : n ≠ m := fun h => hij (by rw [h])
              have := ih n m a b hnm ha hb pa pb
              rw [List.countP_cons]
              omega

/-- C4: in every reachable state of a run with configured concurrency
`c`, at most `max(1, c)` tasks hold a concurrency slot and at most that
many have a network call open; an acquire blocks unless a slot is
available; and whenever no task holds a slot (for instance when all have
terminated) the semaphore is back at full capacity — every acquired slot
was released, error paths included, because releases coincide with the
terminal transitions of the step relation. -/
theorem concurrency_cap (bs : List Behavior) (c : ℤ) (s : Sys)
    (h : Reach bs c s) :
    inFlight s.pcs ≤ effCap c
    ∧ holders s.pcs ≤ effCap c
    ∧ ((∀ pc ∈ s.pcs, holdsSlot pc = false) → s.avail = effCap c) := by
  have hinv := (reach_invariant bs c s h).1
  have hif : inFlight s.pcs ≤ holders s.pcs := by
    apply List.countP_mono_left
    intro pc hpc hsend
    cases pc <;> simp [sendOpen, holdsSlot] at hsend ⊢
  refine ⟨?_, ?_, ?_⟩
  · simp only [holders] at hinv; simp only [inFlight] at hif ⊢
    simp only [holders] at hif
    omega
  · simp only [holders] at hinv ⊢; omega
  · intro hall
    have hz : holders s.pcs = 0 := by
      refine List.countP_eq_zero.mpr ?_
      intro pc hpc
      simp [hall pc hpc]
    omega

/-- C4 witness: with one recipient and cap 1, the state reached after
the task acquires the slot and opens its send is reachable and respects
the cap; after the task terminates, the slot has been released and the
semaphore is back at capacity. -/
theorem concurrency_cap_witness :
    inFlight [PC.sending1] ≤ effCap 1
    ∧ (⟨[PC.done Status.ok none], 1⟩ : Sys).avail = effCap 1 := by
  have r0 : Reach [⟨AttemptResult.ok, AttemptResult.ok⟩] 1
      (initSys [⟨AttemptResult.ok, AttemptResult.ok⟩] 1) := Reach.init
  have r1 : Reach [⟨AttemptResult.ok, AttemptResult.ok⟩] 1
      ⟨[PC.waitSem], 1⟩ :=
    Reach.step _ _ r0 (Step.pacingDone 0 _ rfl)
  have r2 : Reach [⟨AttemptResult.ok, AttemptResult.ok⟩] 1
      ⟨[PC.sending1], 0⟩ :=
    Reach.step _ _ r1 (Step.acquire 0 _ rfl (by norm_num))
  have r3 : Reach [⟨AttemptResult.ok, AttemptResult.ok⟩] 1
      ⟨[PC.done Status.ok none], 1⟩ :=
    Reach.step _ _ r2 (Step.firstDone 0 _ ⟨AttemptResult.ok, AttemptResult.ok⟩
      (Status.ok, none) rfl rfl rfl)
  refine ⟨(concurrency_cap _ 1 _ r2).1, (concurrency_cap _ 1 _ r3).2.2 ?_⟩
  intro pc hpc
  simp only [List.mem_singleton] at hpc
  subst hpc
  rfl

/-- C10: with effective concurrency cap 1, a task sitting in its backoff
sleep still holds the single slot (the backoff and the retry send happen
inside `async with semaphore:`, which releases only at the terminal
outcome), so in any reachable state where task `i` is in backoff, the
semaphore is empty, no task has a network call open, and no other task
holds a slot — no other recipient's send can start during the backoff. -/
theorem backoff_excludes_others (bs : List Behavior) (c : ℤ) (s : Sys)
    (i : ℕ) (hc : effCap c = 1) (h : Reach bs c s)
    (hpc : s.pcs.get? i = some PC.backoff) :
    holdsSlot PC.backoff = true
    ∧ s.avail = 0
    ∧ inFlight s.pcs = 0
    ∧ ∀ j pc, j ≠ i → s.pcs.get? j = some pc → holdsSlot pc = false := by
  have hinv := (reach_invariant bs c s h).1
  have hmem : PC.backoff ∈ s.pcs := List.get?_mem hpc
  have hpos : 0 < holders s.pcs :=
    List.countP_pos_iff.mpr ⟨PC.backoff, hmem, rfl⟩
  have hone : holders s.pcs = 1 := by
    simp only [holders] at hpos hinv ⊢
    omega
  have hothers : ∀ j pc, j ≠ i → s.pcs.get? j = some pc →
      holdsSlot pc = false := by
    intro j pc hji hj
    by_contra hcon
    have hp : holdsSlot pc = true := by
      cases hpb : holdsSlot pc
      · exact absurd hpb hcon
      · rfl
    have h2 := two_le_countP holdsSlot s.pcs j i pc PC.backoff hji hj hpc hp rfl
    simp only [holders] at hone
    omega
  refine ⟨rfl, ?_, ?_, hothers⟩
  · simp only [holders] at hinv hone
    omega
  · refine List.countP_eq_zero.mpr ?_
    intro pc hpcmem hsend
    obtain ⟨k, hk⟩ := List.get?_of_mem hpcmem
    by_cases hki : k = i
    · subst hki
      rw [hk] at hpc
      injection hpc with hpc
      subst hpc
      simp [sendOpen] at hsend
    · have hslot : holdsSlot pc = true := by
        cases pc <;> simp [sendOpen] at hsend <;> rfl
      have := hothers k pc hki hk
      rw [this] at hslot
      exact Bool.false_ne_true hslot

/-- C10 witness: a two-recipient run with cap 1 in which the first task
is rate limited and reaches its backoff while the second is still pacing;
the semaphore is empty and no other task holds a slot. -/
theorem backoff_excludes_others_witness :
    holdsSlot PC.backoff = true
    ∧ (⟨[PC.backoff, PC.pacing], 0⟩ : Sys).avail = 0
    ∧ inFlight [PC.backoff, PC.pacing] = 0 := by
  have r0 : Reach [⟨AttemptResult.retryAfter 2 "rl", AttemptResult.ok⟩,
      ⟨AttemptResult.ok, AttemptResult.ok⟩] 1
      (initSys [⟨AttemptResult.retryAfter 2 "rl", AttemptResult.ok⟩,
        ⟨AttemptResult.ok, AttemptResult.ok⟩] 1) := Reach.init
  have r1 : Reach [⟨AttemptResult.retryAfter 2 "rl", AttemptResult.ok⟩,
      ⟨AttemptResult.ok, AttemptResult.ok⟩] 1
      ⟨[PC.waitSem, PC.pacing], 1⟩ :=
    Reach.step _ _ r0 (Step.pacingDone 0 _ rfl)
  have r2 : Reach [⟨AttemptResult.retryAfter 2 "rl", AttemptResult.ok⟩,
      ⟨AttemptResult.ok, AttemptResult.ok⟩] 1
      ⟨[PC.sending1, PC.pacing], 0⟩ :=
    Reach.step _ _ r1 (Step.acquire 0 _ rfl (by norm_num))
  have r3 : Reach [⟨AttemptResult.retryAfter 2 "rl", AttemptResult.ok⟩,
      ⟨AttemptResult.ok, AttemptResult.ok⟩] 1
      ⟨[PC.backoff, PC.pacing], 0⟩ :=
    Reach.step _ _ r2 (Step.firstRetry 0 _
      ⟨AttemptResult.retryAfter 2 "rl", AttemptResult.ok⟩ 2 "rl" rfl rfl rfl)
  have h := backoff_excludes_others _ 1 _ 0 rfl r3 rfl
  exact ⟨h.1, h.2.1, h.2.2.1⟩

/-- C5 counterexample: a recipient rate-limited on the first attempt
makes two send attempts but the trace contains only one sleep of the
pacing duration `1 / max(1, 15) = 1/15` (the other sleep is the backoff
of `2 + 1 = 3` seconds), so the pacing delay is not waited before each
send attempt — it is waited once per recipient, not once per attempt. -/
theorem pacing_per_attempt_cex :
    numAttempts (send_one 7 (delay_per_msg 15)
        ⟨AttemptResult.retryAfter 2 "rl", AttemptResult.ok⟩).events = 2
    ∧ List.count (delay_per_msg 15)
        (sleepDurations (send_one 7 (delay_per_msg 15)
          ⟨AttemptResult.retryAfter 2 "rl", AttemptResult.ok⟩).events) = 1
    ∧ sleepDurations (send_one 7 (delay_per_msg 15)
        ⟨AttemptResult.retryAfter 2 "rl", AttemptResult.ok⟩).events
      = [delay_per_msg 15, 3] := by
  refine ⟨rfl, ?_, ?_⟩
  · show List.count (delay_per_msg 15) [delay_per_msg 15, (2 : ℚ) + 1] = 1
    have h1 : delay_per_msg 15 = 1 / 15 := by
      norm_num [delay_per_msg]
    have h2 : (2 : ℚ) + 1 = 3 := by norm_num
    rw [h1, h2]
    norm_num [List.count_cons]
  · show [delay_per_msg 15, (2 : ℚ) + 1] = [delay_per_msg 15, 3]
    norm_num

/-- C5 amended: the pacing delay of `1 / max(1, target_rate)` seconds is
waited exactly once per recipient task — before the concurrency slot is
acquired and before the first send attempt; the retry attempt after a
`RetryAfter` is preceded only by the `retry_after + 1` backoff sleep, not
by another pacing delay. -/
theorem pacing_policy (rate : ℤ) (uid : ℤ) (b : Behavior) :
    delay_per_msg rate = 1 / ((max 1 rate : ℤ) : ℚ)
    ∧ (send_one uid (delay_per_msg rate) b).events.take 2
        = [SOEvent.sleep (delay_per_msg rate), SOEvent.acquireSem]
    ∧ sleepDurations (send_one uid (delay_per_msg rate) b).events
        = delay_per_msg rate :: backoffSleeps b.first := by
  obtain ⟨f, s⟩ := b
  refine ⟨rfl, ?_, ?_⟩ <;>
    cases f <;> cases s <;>
      simp [send_one, sleepDurations, backoffSleeps]
